import Mathlib

/-!
Verification of the Gitea provider's diff-based file reconstruction engine
(`pr_agent/git_providers/gitea_provider.py`).

The development shallowly embeds the reverse hunk applier of
`GiteaProvider.get_diff_files`, the per-file assembly loop, the edit-type
classification, and the suggestion-publishing control flow of
`GiteaProvider.publish_code_suggestions`.  Python list semantics
(`list.pop` raising IndexError out of range, `list.insert` clamping the
index) are modelled explicitly; a raised exception is modelled by `none`
propagating out of the enclosing computation, exactly as an uncaught
Python exception propagates.
-/

namespace GiteaProvider

/-- Kind of a line of a unified diff hunk (unidiff `Line`). -/
inductive LineKind where
  | context
  | added
  | removed
deriving DecidableEq, Repr

/-- A hunk line as exposed by unidiff: its kind, raw value (terminator
included), and the 1-based source/target line numbers.  The code reads
`target_line_no` only on added lines and `source_line_no` only on removed
lines, so each field is meaningful only for the corresponding kind. -/
structure DiffLine where
  kind : LineKind
  value : String
  source_line_no : Nat
  target_line_no : Nat
deriving DecidableEq, Repr

/-- A hunk: an ordered list of diff lines (unidiff `Hunk`). -/
structure Hunk where
  lines : List DiffLine
deriving DecidableEq, Repr

/-- A per-file diff from the parsed patch (unidiff `PatchedFile`):
its target path, its source file name, and its hunks in as-parsed order. -/
structure FileDiff where
  path : String
  source_file : String
  hunks : List Hunk
deriving DecidableEq, Repr

/-- Python `xs.pop(i)` index semantics: a negative index counts from the
end; an index out of range raises IndexError (modelled as `none`).
Returns the list with the element removed. -/
def pythonPop {α : Type} (xs : List α) (i : Int) : Option (List α) :=
  let n : Int := xs.length
  let j : Int := if i < 0 then i + n else i
  if 0 ≤ j ∧ j < n then some (xs.eraseIdx j.toNat) else none

/-- Python `xs.insert(i, v)` semantics: the index is clamped into
`[0, len(xs)]` (negative counts from the end, then clamps at 0; an index
past the end appends).  Never raises. -/
def pythonInsert {α : Type} (xs : List α) (i : Int) (v : α) : List α :=
  let n : Int := xs.length
  let j : Int := if i < 0 then max (i + n) 0 else min i n
  List.insertIdx j.toNat v xs

/-- One step of the reverse hunk applier, from the loop body of
`get_diff_files`: an added line is popped at `target_line_no - 1`, a
removed line's value is inserted at `source_line_no - 1`, a context line
is left alone.  `none` models the uncaught IndexError from `pop`. -/
def revStep (ls : List String) (l : DiffLine) : Option (List String) :=
  match l.kind with
  | .added => pythonPop ls ((l.target_line_no : Int) - 1)
  | .removed => some (pythonInsert ls ((l.source_line_no : Int) - 1) l.value)
  | .context => some ls

/-- Sequentially apply `revStep` over a list of diff lines, aborting on
the first failure (an exception propagates out of the loop). -/
def revApplyOps : List DiffLine → List String → Option (List String)
  | [], s => some s
  | l :: rest, s =>
    match revStep s l with
    | some s₁ => revApplyOps rest s₁
    | none => none

/-- The outer loop `for hunk in reversed(patched_file)` applied to an
already-reversed hunk list: each hunk's lines are walked in reverse. -/
def applyHunksRevAux : List Hunk → List String → Option (List String)
  | [], s => some s
  | h :: rest, s =>
    match revApplyOps h.lines.reverse s with
    | some s₁ => applyHunksRevAux rest s₁
    | none => none

/-- The reverse hunk applier of `get_diff_files`: hunks in reverse order,
lines of each hunk in reverse order, each line handled by `revStep`. -/
def applyHunksRev (hunks : List Hunk) (s : List String) : Option (List String) :=
  applyHunksRevAux hunks.reverse s

/-- Spec-side single step on the working copy: erase at
`target_line_no - 1` for an added line, insert the value at
`source_line_no - 1` for a removed line, identity for context.  Total,
with plain `List.eraseIdx` / `List.insertIdx` index handling. -/
def specStep (ls : List String) (l : DiffLine) : List String :=
  match l.kind with
  | .added => ls.eraseIdx (l.target_line_no - 1)
  | .removed => List.insertIdx (l.source_line_no - 1) l.value ls
  | .context => ls

/-- Spec-side application of a line sequence, first line first. -/
def specApplyOps (ops : List DiffLine) (ls : List String) : List String :=
  ops.foldl specStep ls

/-- Bounds discipline for one reverse step: line numbers are 1-based and
the addressed index lies inside the working copy. -/
def okStepB (ls : List String) (l : DiffLine) : Bool :=
  match l.kind with
  | .context => true
  | .added => decide (1 ≤ l.target_line_no) && decide (l.target_line_no - 1 < ls.length)
  | .removed => decide (1 ≤ l.source_line_no) && decide (l.source_line_no - 1 ≤ ls.length)

/-- Every step of a reverse run stays in bounds (the working copy
evolving by `specStep`). -/
def validBounds : List DiffLine → List String → Bool
  | [], _ => true
  | l :: rest, s => okStepB s l && validBounds rest (specStep s l)

/-- Validity of one reverse step for the round-trip property: in addition
to the bounds discipline, an added line's value actually occurs in the
working copy at `target_line_no - 1` (it is the line the forward edit
inserted). -/
def okStepV (ls : List String) (l : DiffLine) : Bool :=
  match l.kind with
  | .context => true
  | .added =>
    decide (1 ≤ l.target_line_no) && decide (ls.get? (l.target_line_no - 1) = some l.value)
  | .removed => decide (1 ≤ l.source_line_no) && decide (l.source_line_no - 1 ≤ ls.length)

/-- Validity of a whole reverse run for the round-trip property. -/
def validRev : List DiffLine → List String → Bool
  | [], _ => true
  | l :: rest, s => okStepV s l && validRev rest (specStep s l)

/-- Modelled from the spec: forward application of a single hunk line
(the inverse edit direction, base toward head); the unified-diff forward
semantics is not part of the source, which only reverse-applies.  An
added line inserts its value at `target_line_no - 1`, a removed line
deletes at `source_line_no - 1`, context lines change nothing; an
out-of-range index fails. -/
def fwdStep (ls : List String) (l : DiffLine) : Option (List String) :=
  match l.kind with
  | .added =>
    if l.target_line_no - 1 ≤ ls.length then
      some (List.insertIdx (l.target_line_no - 1) l.value ls)
    else none
  | .removed =>
    if l.source_line_no - 1 < ls.length then some (ls.eraseIdx (l.source_line_no - 1))
    else none
  | .context => some ls

/-- Modelled from the spec: forward application of a line sequence, first
line first, aborting on the first failure. -/
def fwdApplyOps : List DiffLine → List String → Option (List String)
  | [], s => some s
  | l :: rest, s =>
    match fwdStep s l with
    | some s₁ => fwdApplyOps rest s₁
    | none => none

/-- Modelled from the spec: forward application of a file's hunks, hunks
in forward order and each hunk's lines in forward order. -/
def fwdApplyHunks (hunks : List Hunk) (s : List String) : Option (List String) :=
  fwdApplyOps ((hunks.map Hunk.lines).flatten) s

/-- The flattened reverse-order line sequence of a hunk list: the lines
visited by `for hunk in reversed(...): for line in reversed(hunk)`. -/
def revOpsOf (hunks : List Hunk) : List DiffLine :=
  ((hunks.map Hunk.lines).flatten).reverse

/-- Python `"".join(lines)`. -/
def joinLines (ls : List String) : String :=
  String.join ls

/-- Modelled from the spec: the edit classification enum of
`pr_agent.algo.types` (module not in the sources; only the four
classifications the provider produces are needed). -/
inductive EDIT_TYPE where
  | ADDED
  | DELETED
  | MODIFIED
  | UNKNOWN
deriving DecidableEq, Repr

/-- The edit-type computation of `get_diff_files` (lines 110-117). -/
def classifyEdit (num_plus num_minus : Nat) : EDIT_TYPE :=
  if 0 < num_plus ∧ 0 < num_minus then .MODIFIED
  else if 0 < num_plus then .ADDED
  else if 0 < num_minus then .DELETED
  else .UNKNOWN

/-- Modelled from the spec: the record type `FilePatchInfo` of
`pr_agent.algo.types` (module not in the sources), restricted to the
fields `get_diff_files` fills. -/
structure FilePatchInfo where
  base_file : String
  head_file : String
  patch : String
  filename : String
  old_filename : Option String
  num_plus_lines : Nat
  num_minus_lines : Nat
  edit_type : EDIT_TYPE
deriving DecidableEq, Repr

/-- One change-metadata entry of the `pulls/{id}/files` response, with the
head content (fetched from `raw_url`) already split
`splitlines(keepends=True)`-style into terminator-preserving lines. -/
structure FileChangeMeta where
  filename : String
  additions : Nat
  deletions : Nat
  head_lines : List String
deriving DecidableEq, Repr

/-- The `for patched_file in patch_set` loop of `get_diff_files`: each
`FileDiff` whose path equals the metadata filename overwrites the
accumulated `(base_file, base_file_name)` pair with the joined
reverse-applied head lines and the diff's source file; `none` models the
IndexError propagating out of the loop. -/
def reconstructFold (head_lines : List String) (filename : String) :
    List FileDiff → String × Option String → Option (String × Option String)
  | [], acc => some acc
  | pf :: rest, acc =>
    if pf.path = filename then
      match applyHunksRev pf.hunks head_lines with
      | some base_lines =>
        reconstructFold head_lines filename rest (joinLines base_lines, some pf.source_file)
      | none => none
    else reconstructFold head_lines filename rest acc

/-- Assembly of one `FilePatchInfo` from one metadata entry
(`get_diff_files` loop body, lines 104-155). -/
def processFile (patch : String) (patch_set : List FileDiff) (meta : FileChangeMeta) :
    Option FilePatchInfo :=
  match reconstructFold meta.head_lines meta.filename patch_set ("", none) with
  | none => none
  | some (base_file, base_file_name) =>
    some
      { base_file := base_file
        head_file := joinLines meta.head_lines
        patch := patch
        filename := meta.filename
        old_filename := base_file_name
        num_plus_lines := meta.additions
        num_minus_lines := meta.deletions
        edit_type := classifyEdit meta.additions meta.deletions }

/-- The per-file loop of `get_diff_files`: files processed in order; an
exception in any file aborts the whole call, discarding all records. -/
def mapFiles (patch : String) (patch_set : List FileDiff) :
    List FileChangeMeta → Option (List FilePatchInfo)
  | [] => some []
  | m :: rest =>
    match processFile patch patch_set m with
    | none => none
    | some r =>
      match mapFiles patch patch_set rest with
      | none => none
      | some rs => some (r :: rs)

/-- `get_diff_files`, with the transport results supplied as inputs: the
outcome of `PatchSet(patch.splitlines())` (which raises on a malformed
patch — `Except.error`), the raw patch text, and the change-metadata
entries with their fetched head contents.  The parse happens once, before
any file is processed, and its failure is not caught anywhere in the
function. -/
def get_diff_files (parseResult : Except Unit (List FileDiff)) (patch : String)
    (files : List FileChangeMeta) : Option (List FilePatchInfo) :=
  match parseResult with
  | .error _ => none
  | .ok patch_set => mapFiles patch patch_set files

/-- A code suggestion as consumed by `publish_code_suggestions`. -/
structure Suggestion where
  body : String
  relevant_file : String
  relevant_lines_start : Nat
deriving DecidableEq, Repr

/-- An inline comment descriptor as built by `publish_code_suggestions`. -/
structure InlineComment where
  body : String
  new_position : Nat
  path : String
deriving DecidableEq, Repr

/-- Python `s.replace(pat, rep)` for a nonempty pattern, by structural
recursion with the remaining length as fuel (each step consumes at least
one character): replaces all non-overlapping occurrences left to right. -/
def replaceFuel (pat rep : List Char) : Nat → List Char → List Char
  | _, [] => []
  | 0, s => s
  | n + 1, c :: rest =>
    if pat.isPrefixOf (c :: rest) then
      rep ++ replaceFuel pat rep n (rest.drop (pat.length - 1))
    else c :: replaceFuel pat rep n rest

/-- Python `s.replace(pat, rep)` on strings (nonempty pattern). -/
def pyReplace (s pat rep : String) : String :=
  String.mk (replaceFuel pat.data rep.data s.data.length s.data)

/-- Processing of one suggestion in the loop of
`publish_code_suggestions` (lines 170-192): find the first diff file
whose filename equals `relevant_file` (the `for`/`break` search, `None`
if absent), then rewrite the suggestion fence with the newline-stripped
filename and anchor the comment at `relevant_lines_start + 1`.  When no
file matches, `target_file` is `None` and the attribute access
`target_file.filename` raises — modelled as `none`. -/
def processOne (diff_files : List FilePatchInfo) (s : Suggestion) : Option InlineComment :=
  match diff_files.find? (fun f => f.filename == s.relevant_file) with
  | none => none
  | some target_file =>
    let fname := pyReplace target_file.filename "\n" ""
    some
      { body := pyReplace s.body "```suggestion" ("```" ++ fname)
        new_position := s.relevant_lines_start + 1
        path := fname }

/-- The suggestions actually examined by the loop of
`publish_code_suggestions`: the whole `try` block wraps the loop, so the
first raising suggestion is the last one attempted — everything after it
is skipped. -/
def attempted (diff_files : List FilePatchInfo) : List Suggestion → List Suggestion
  | [] => []
  | s :: rest =>
    match processOne diff_files s with
    | none => [s]
    | some _ => s :: attempted diff_files rest

/-- The `inline_comments` list built by the loop: `none` when any
suggestion raises (the exception jumps to `except`, discarding the batch
before the single POST). -/
def buildComments (diff_files : List FilePatchInfo) : List Suggestion → Option (List InlineComment)
  | [] => some []
  | s :: rest =>
    match processOne diff_files s with
    | none => none
    | some c =>
      match buildComments diff_files rest with
      | none => none
      | some cs => some (c :: cs)

/-- `publish_code_suggestions`: the outer `some` holds the Boolean result
together with the comments actually published (inner `none` when the
`except` branch ran and nothing was posted); the outer `none` models the
function itself raising.  `publishOk` models whether the single review
POST succeeds.  The `except` handler's log f-string (lines 205-207) reads
the loop variable `suggestion`: when the loop body ran at least once the
variable is bound and the handler logs and falls through to `return True`
(line 210), but when `code_suggestions` is empty and the POST raises, the
variable was never assigned and evaluating the f-string raises
UnboundLocalError out of the function. -/
def publishCodeSuggestions (diff_files : List FilePatchInfo) (suggestions : List Suggestion)
    (publishOk : Bool) : Option (Bool × Option (List InlineComment)) :=
  match buildComments diff_files suggestions with
  | none => some (true, none)
  | some cs =>
    if publishOk then some (true, some cs)
    else if suggestions.isEmpty then none
    else some (true, none)

theorem revApplyOps_append (l₁ l₂ : List DiffLine) (s : List String) :
    revApplyOps (l₁ ++ l₂) s =
      match revApplyOps l₁ s with
      | some s₁ => revApplyOps l₂ s₁
      | none => none := by
  induction l₁ generalizing s with
  | nil => rfl
  | cons l rest ih =>
    simp only [List.cons_append, revApplyOps]
    cases revStep s l with
    | none => rfl
    | some s₁ => exact ih s₁

theorem fwdApplyOps_append (l₁ l₂ : List DiffLine) (s : List String) :
    fwdApplyOps (l₁ ++ l₂) s =
      match fwdApplyOps l₁ s with
      | some s₁ => fwdApplyOps l₂ s₁
      | none => none := by
  induction l₁ generalizing s with
  | nil => rfl
  | cons l rest ih =>
    simp only [List.cons_append, fwdApplyOps]
    cases fwdStep s l with
    | none => rfl
    | some s₁ => exact ih s₁

theorem applyHunksRevAux_eq_ops (hs : List Hunk) (s : List String) :
    applyHunksRevAux hs s = revApplyOps ((hs.map (fun h => h.lines.reverse)).flatten) s := by
  induction hs generalizing s with
  | nil => rfl
  | cons h rest ih =>
    simp only [applyHunksRevAux, List.map_cons, List.flatten_cons, revApplyOps_append]
    cases revApplyOps h.lines.reverse s with
    | none => rfl
    | some s₁ => exact ih s₁

theorem revOpsOf_eq (hunks : List Hunk) :
    revOpsOf hunks = ((hunks.reverse).map (fun h => h.lines.reverse)).flatten := by
  unfold revOpsOf
  rw [List.reverse_flatten, List.map_map, ← List.map_reverse]
  rfl

/-- The nested reverse iteration of the source equals one pass over the
flattened line sequence taken in reverse order. -/
theorem applyHunksRev_eq_ops (hunks : List Hunk) (s : List String) :
    applyHunksRev hunks s = revApplyOps (revOpsOf hunks) s := by
  rw [applyHunksRev, applyHunksRevAux_eq_ops, revOpsOf_eq]

theorem pythonPop_in_range {α : Type} (xs : List α) (i : Int) (h0 : 0 ≤ i)
    (h1 : i < (xs.length : Int)) : pythonPop xs i = some (xs.eraseIdx i.toNat) := by
  simp only [pythonPop]
  rw [if_neg (show ¬ i < 0 by omega), if_pos ⟨h0, h1⟩]

theorem pythonPop_too_big {α : Type} (xs : List α) (i : Int) (h0 : 0 ≤ i)
    (h1 : (xs.length : Int) ≤ i) : pythonPop xs i = none := by
  simp only [pythonPop]
  rw [if_neg (show ¬ i < 0 by omega), if_neg (by omega)]

theorem pythonInsert_in_range {α : Type} (xs : List α) (i : Int) (v : α) (h0 : 0 ≤ i)
    (h1 : i ≤ (xs.length : Int)) : pythonInsert xs i v = List.insertIdx i.toNat v xs := by
  simp only [pythonInsert]
  rw [if_neg (show ¬ i < 0 by omega), min_eq_left h1]

theorem revStep_eq_specStep {s : List String} {l : DiffLine} (h : okStepB s l = true) :
    revStep s l = some (specStep s l) := by
  cases hk : l.kind with
  | context => simp [revStep, specStep, hk]
  | added =>
    simp only [okStepB, hk, Bool.and_eq_true, decide_eq_true_eq] at h
    obtain ⟨h1, h2⟩ := h
    have hi : ((l.target_line_no : Int) - 1) = ((l.target_line_no - 1 : Nat) : Int) := by
      omega
    simp only [revStep, specStep, hk, hi]
    rw [pythonPop_in_range s _ (by omega) (by omega)]
    simp
  | removed =>
    simp only [okStepB, hk, Bool.and_eq_true, decide_eq_true_eq] at h
    obtain ⟨h1, h2⟩ := h
    have hi : ((l.source_line_no : Int) - 1) = ((l.source_line_no - 1 : Nat) : Int) := by
      omega
    simp only [revStep, specStep, hk, hi]
    rw [pythonInsert_in_range s _ _ (by omega) (by omega)]
    simp

theorem revApplyOps_of_validBounds :
    ∀ (ops : List DiffLine) (s : List String), validBounds ops s = true →
      revApplyOps ops s = some (specApplyOps ops s)
  | [], _, _ => rfl
  | l :: rest, s, h => by
    simp only [validBounds, Bool.and_eq_true] at h
    obtain ⟨h1, h2⟩ := h
    simp only [revApplyOps, revStep_eq_specStep h1, specApplyOps, List.foldl_cons]
    exact revApplyOps_of_validBounds rest (specStep s l) h2

theorem get?_some_lt {α : Type} {xs : List α} {i : Nat} {v : α} (h : xs.get? i = some v) :
    i < xs.length := by
  rw [List.get?_eq_getElem?] at h
  exact (List.getElem?_eq_some_iff.1 h).1

theorem insertIdx_get?_eraseIdx {α : Type} :
    ∀ (xs : List α) (i : Nat) (v : α), xs.get? i = some v →
      List.insertIdx i v (xs.eraseIdx i) = xs
  | [], i, v, h => by simp [List.get?] at h
  | x :: xs, 0, v, h => by
    simp only [List.get?, Option.some.injEq] at h
    subst h
    rfl
  | x :: xs, i + 1, v, h => by
    simp only [List.get?] at h
    simp only [List.eraseIdx_cons_succ, List.insertIdx_succ_cons]
    rw [insertIdx_get?_eraseIdx xs i v h]

theorem okStepB_of_okStepV {s : List String} {l : DiffLine} (h : okStepV s l = true) :
    okStepB s l = true := by
  cases hk : l.kind with
  | context => simp [okStepB, hk]
  | added =>
    simp only [okStepV, hk, Bool.and_eq_true, decide_eq_true_eq] at h
    simp only [okStepB, hk, Bool.and_eq_true, decide_eq_true_eq]
    exact ⟨h.1, get?_some_lt h.2⟩
  | removed =>
    simp only [okStepV, hk] at h
    simp only [okStepB, hk]
    exact h

theorem fwdStep_specStep {s : List String} {l : DiffLine} (h : okStepV s l = true) :
    fwdStep (specStep s l) l = some s := by
  cases hk : l.kind with
  | context => simp [fwdStep, specStep, hk]
  | added =>
    simp only [okStepV, hk, Bool.and_eq_true, decide_eq_true_eq] at h
    obtain ⟨h1, h2⟩ := h
    have hlt : l.target_line_no - 1 < s.length := get?_some_lt h2
    have hlen : (s.eraseIdx (l.target_line_no - 1)).length = s.length - 1 := by
      rw [List.length_eraseIdx, if_pos hlt]
    simp only [fwdStep, specStep, hk]
    rw [if_pos (by omega), insertIdx_get?_eraseIdx s _ _ h2]
  | removed =>
    simp only [okStepV, hk, Bool.and_eq_true, decide_eq_true_eq] at h
    obtain ⟨h1, h2⟩ := h
    have hlen : (List.insertIdx (l.source_line_no - 1) l.value s).length = s.length + 1 :=
      List.length_insertIdx _ _ h2
    simp only [fwdStep, specStep, hk]
    rw [if_pos (by omega), List.eraseIdx_insertIdx]

theorem roundtrip_ops :
    ∀ (ops : List DiffLine) (s : List String), validRev ops s = true →
      revApplyOps ops s = some (specApplyOps ops s) ∧
        fwdApplyOps ops.reverse (specApplyOps ops s) = some s
  | [], _, _ => ⟨rfl, rfl⟩
  | l :: rest, s, h => by
    simp only [validRev, Bool.and_eq_true] at h
    obtain ⟨h1, h2⟩ := h
    obtain ⟨ih1, ih2⟩ := roundtrip_ops rest (specStep s l) h2
    have hstep : revStep s l = some (specStep s l) := revStep_eq_specStep (okStepB_of_okStepV h1)
    have hfold : specApplyOps (l :: rest) s = specApplyOps rest (specStep s l) := rfl
    constructor
    · simp only [revApplyOps, hstep, hfold]
      exact ih1
    · rw [hfold, List.reverse_cons, fwdApplyOps_append, ih2]
      simp only [fwdApplyOps, fwdStep_specStep h1]

theorem processFile_single_match (patch : String) (pf : FileDiff) (meta : FileChangeMeta)
    (hp : pf.path = meta.filename) {b : List String}
    (hb : applyHunksRev pf.hunks meta.head_lines = some b) :
    processFile patch [pf] meta =
      some
        { base_file := joinLines b
          head_file := joinLines meta.head_lines
          patch := patch
          filename := meta.filename
          old_filename := some pf.source_file
          num_plus_lines := meta.additions
          num_minus_lines := meta.deletions
          edit_type := classifyEdit meta.additions meta.deletions } := by
  simp only [processFile, reconstructFold, if_pos hp, hb]

theorem reconstructFold_no_match (hl : List String) (fn : String) :
    ∀ (ps : List FileDiff) (acc : String × Option String),
      (∀ pf ∈ ps, pf.path ≠ fn) → reconstructFold hl fn ps acc = some acc
  | [], _, _ => rfl
  | pf :: rest, acc, h => by
    have hpf : pf.path ≠ fn := h pf (List.mem_cons_self pf rest)
    simp only [reconstructFold, if_neg hpf]
    exact reconstructFold_no_match hl fn rest acc fun q hq => h q (List.mem_cons_of_mem pf hq)

theorem mapFiles_none_of_mem (patch : String) (ps : List FileDiff) :
    ∀ (files : List FileChangeMeta) (m : FileChangeMeta), m ∈ files →
      processFile patch ps m = none → mapFiles patch ps files = none
  | [], m, hm, _ => absurd hm (List.not_mem_nil m)
  | f :: rest, m, hm, hnone => by
    rcases List.mem_cons.1 hm with h | h
    · subst h
      simp only [mapFiles, hnone]
    · simp only [mapFiles]
      cases hf : processFile patch ps f with
      | none => rfl
      | some r => rw [mapFiles_none_of_mem patch ps rest m h hnone]

/-- C1: for a metadata entry whose diff is found in the parsed patch, the
reverse hunk applier walks the hunks in reverse order and each hunk's
lines in reverse order (the flattened reversed sequence `revOpsOf`); each
added line is erased at index `target_line_no - 1`, each removed line's
value is inserted at index `source_line_no - 1`, each context line leaves
the working copy unchanged (`specStep`); the joined working copy is the
record's base content.  Stated under the bounds discipline `validBounds`
(with Python `pop`/`insert` index semantics, the two sides coincide
exactly when every step stays in range). -/
theorem reverse_applier_matches_spec (patch : String) (pf : FileDiff) (meta : FileChangeMeta)
    (hmatch : pf.path = meta.filename)
    (hv : validBounds (revOpsOf pf.hunks) meta.head_lines = true) :
    ∃ b, applyHunksRev pf.hunks meta.head_lines = some b ∧
      b = specApplyOps (revOpsOf pf.hunks) meta.head_lines ∧
      ∃ r, processFile patch [pf] meta = some r ∧
        r.base_file = joinLines b ∧ r.old_filename = some pf.source_file := by
  have h1 : applyHunksRev pf.hunks meta.head_lines =
      some (specApplyOps (revOpsOf pf.hunks) meta.head_lines) := by
    rw [applyHunksRev_eq_ops]
    exact revApplyOps_of_validBounds _ _ hv
  exact ⟨_, h1, rfl, _, processFile_single_match patch pf meta hmatch h1, rfl, rfl⟩

/-- Witness for C1, the spec's Scenario 1: head `"a\nb\nc\n"`, one hunk
with a removed line at source position 2 with value `"x\n"`; the base is
`"a\nx\nb\nc\n"`. -/
theorem reverse_applier_matches_spec_witness :
    ∃ b, applyHunksRev [Hunk.mk [DiffLine.mk .removed "x\n" 2 0]] ["a\n", "b\n", "c\n"] =
        some b ∧
      b = specApplyOps (revOpsOf [Hunk.mk [DiffLine.mk .removed "x\n" 2 0]])
          ["a\n", "b\n", "c\n"] ∧
      ∃ r, processFile "p" [FileDiff.mk "f" "f" [Hunk.mk [DiffLine.mk .removed "x\n" 2 0]]]
            (FileChangeMeta.mk "f" 0 1 ["a\n", "b\n", "c\n"]) = some r ∧
        r.base_file = joinLines b ∧ r.old_filename = some "f" :=
  reverse_applier_matches_spec "p" (FileDiff.mk "f" "f" [Hunk.mk [DiffLine.mk .removed "x\n" 2 0]])
    (FileChangeMeta.mk "f" 0 1 ["a\n", "b\n", "c\n"]) rfl (by decide)

/-- C2 counterexample: a removed line whose `source_line_no` is far past
the working-array bounds does not fail at all — Python `insert` clamps
the index and the value is silently appended, corrupting the base. -/
theorem oob_insert_is_silent :
    revStep ["a\n"] (DiffLine.mk .removed "x\n" 100 0) = some ["a\n", "x\n"] := by
  decide

/-- C2 (amended): an added line whose `target_line_no` exceeds the
working-array length makes `pop` raise an IndexError (`none`), and that
uncaught exception aborts the entire `get_diff_files` batch — no
degradation to an empty or partial base for just that file; a removed
line never fails, its out-of-range insert index being silently clamped. -/
theorem bounds_behavior_amended :
    (∀ (s : List String) (l : DiffLine), l.kind = .added → s.length < l.target_line_no →
      revStep s l = none) ∧
    (∀ (s : List String) (l : DiffLine), l.kind = .removed → ∃ r, revStep s l = some r) ∧
    ∀ (patch : String) (ps : List FileDiff) (files : List FileChangeMeta) (m : FileChangeMeta),
      m ∈ files → processFile patch ps m = none →
      get_diff_files (Except.ok ps) patch files = none := by
  refine ⟨fun s l hk hlen => ?_, fun s l hk => ?_, fun patch ps files m hm hnone => ?_⟩
  · simp only [revStep, hk]
    exact pythonPop_too_big s _ (by omega) (by omega)
  · simp only [revStep, hk]
    exact ⟨_, rfl⟩
  · simp only [get_diff_files]
    exact mapFiles_none_of_mem patch ps files m hm hnone

/-- Witness for C2 (amended): a pop past the end fails, an out-of-range
insert succeeds, and one failing file (added line at target 5 against a
one-line head) kills the whole two-file batch. -/
theorem bounds_behavior_amended_witness :
    revStep ["a\n"] (DiffLine.mk .added "z\n" 0 5) = none ∧
    (∃ r, revStep ["a\n"] (DiffLine.mk .removed "y\n" 100 0) = some r) ∧
    get_diff_files (Except.ok [FileDiff.mk "f" "f" [Hunk.mk [DiffLine.mk .added "z\n" 0 5]]]) "p"
      [FileChangeMeta.mk "f" 1 0 ["a\n"], FileChangeMeta.mk "g" 1 0 ["b\n"]] = none :=
  ⟨bounds_behavior_amended.1 ["a\n"] (DiffLine.mk .added "z\n" 0 5) rfl (by decide),
    bounds_behavior_amended.2.1 ["a\n"] (DiffLine.mk .removed "y\n" 100 0) rfl,
    bounds_behavior_amended.2.2 "p" [FileDiff.mk "f" "f" [Hunk.mk [DiffLine.mk .added "z\n" 0 5]]]
      [FileChangeMeta.mk "f" 1 0 ["a\n"], FileChangeMeta.mk "g" 1 0 ["b\n"]]
      (FileChangeMeta.mk "f" 1 0 ["a\n"]) (by decide) (by decide)⟩

/-- C3: for any head line sequence and any hunk list valid for reverse
application against it (`validRev`: every step in range and every added
line's value present at its target position), reverse application
succeeds and forward re-application of the same hunks to the result
reproduces the head exactly. -/
theorem reverse_then_forward_roundtrip (hunks : List Hunk) (s : List String)
    (hv : validRev (revOpsOf hunks) s = true) :
    ∃ b, applyHunksRev hunks s = some b ∧ fwdApplyHunks hunks b = some s := by
  obtain ⟨h1, h2⟩ := roundtrip_ops (revOpsOf hunks) s hv
  refine ⟨specApplyOps (revOpsOf hunks) s, ?_, ?_⟩
  · rw [applyHunksRev_eq_ops]
    exact h1
  · unfold fwdApplyHunks
    have hrev : (revOpsOf hunks).reverse = (hunks.map Hunk.lines).flatten := by
      unfold revOpsOf
      rw [List.reverse_reverse]
    rw [← hrev]
    exact h2

/-- Witness for C3, the spec's Scenario 2: head `"a\nb\n"`, one added
line at target position 2; the base is `"a\n"` and forward re-application
restores `"a\nb\n"`. -/
theorem reverse_then_forward_roundtrip_witness :
    ∃ b, applyHunksRev [Hunk.mk [DiffLine.mk .added "b\n" 0 2]] ["a\n", "b\n"] = some b ∧
      fwdApplyHunks [Hunk.mk [DiffLine.mk .added "b\n" 0 2]] b = some ["a\n", "b\n"] :=
  reverse_then_forward_roundtrip [Hunk.mk [DiffLine.mk .added "b\n" 0 2]] ["a\n", "b\n"]
    (by decide)

/-- C4 counterexample: when the patch text is malformed (the `PatchSet`
constructor raises), `get_diff_files` emits no records at all — not even
metadata-only records for the two files of the batch — because the parse
happens once before the loop and the exception is never caught. -/
theorem parse_error_kills_batch_counterexample :
    get_diff_files (Except.error ()) "bad"
      [FileChangeMeta.mk "a.py" 1 0 ["x\n"], FileChangeMeta.mk "b.py" 2 0 ["y\n"]] = none := by
  decide

/-- C4 (amended): a malformed raw patch is fatal to the whole batch: the
ParseError from the single up-front `PatchSet` parse propagates out of
`get_diff_files` before any file is processed, so no metadata-only record
is emitted for the affected file and no sibling file is reconstructed. -/
theorem parse_error_kills_batch (patch : String) (files : List FileChangeMeta) :
    get_diff_files (Except.error ()) patch files = none := rfl

/-- C5: reconstruction is deterministic — two runs of the reverse hunk
applier on the identical (head lines, hunk list) input produce the
identical base output. -/
theorem reconstruction_deterministic (hunks : List Hunk) (s : List String)
    (r₁ r₂ : Option (List String)) (h₁ : applyHunksRev hunks s = r₁)
    (h₂ : applyHunksRev hunks s = r₂) : r₁ = r₂ :=
  h₁.symm.trans h₂

/-- Witness for C5: two runs on the Scenario 2 input both produce
`some ["a\n"]`. -/
theorem reconstruction_deterministic_witness :
    (some ["a\n"] : Option (List String)) = some ["a\n"] :=
  reconstruction_deterministic [Hunk.mk [DiffLine.mk .added "b\n" 0 2]] ["a\n", "b\n"]
    (some ["a\n"]) (some ["a\n"]) (by decide) (by decide)

/-- C6: edit classification is a pure function of the additions count `a`
and deletions count `d`: MODIFIED iff both positive, ADDED iff only
additions, DELETED iff only deletions, UNKNOWN iff both zero. -/
theorem edit_classification_cases (a d : Nat) :
    (classifyEdit a d = .MODIFIED ↔ 0 < a ∧ 0 < d) ∧
    (classifyEdit a d = .ADDED ↔ 0 < a ∧ d = 0) ∧
    (classifyEdit a d = .DELETED ↔ a = 0 ∧ 0 < d) ∧
    (classifyEdit a d = .UNKNOWN ↔ a = 0 ∧ d = 0) := by
  unfold classifyEdit
  split_ifs with h1 h2 h3 <;>
    refine ⟨?_, ?_, ?_, ?_⟩ <;> simp <;> omega

/-- C7: a change-metadata entry with no matching file entry in the parsed
diff is assembled without error into a record whose base content is the
empty string and whose old filename is unset. -/
theorem metadata_without_diff_entry (patch : String) (ps : List FileDiff)
    (meta : FileChangeMeta) (h : ∀ pf ∈ ps, pf.path ≠ meta.filename) :
    ∃ r, processFile patch ps meta = some r ∧ r.base_file = "" ∧ r.old_filename = none := by
  refine
    ⟨{ base_file := ""
       head_file := joinLines meta.head_lines
       patch := patch
       filename := meta.filename
       old_filename := none
       num_plus_lines := meta.additions
       num_minus_lines := meta.deletions
       edit_type := classifyEdit meta.additions meta.deletions }, ?_, rfl, rfl⟩
  simp only [processFile, reconstructFold_no_match meta.head_lines meta.filename ps ("", none) h]

/-- Witness for C7, the spec's Scenario 5: a binary/mode-only metadata
entry absent from the parsed diff. -/
theorem metadata_without_diff_entry_witness :
    ∃ r, processFile "p" [FileDiff.mk "other.py" "other.py" []]
        (FileChangeMeta.mk "image.bin" 0 0 ["x\n"]) = some r ∧
      r.base_file = "" ∧ r.old_filename = none :=
  metadata_without_diff_entry "p" [FileDiff.mk "other.py" "other.py" []]
    (FileChangeMeta.mk "image.bin" 0 0 ["x\n"]) (by decide)

/-- C8: every successfully processed suggestion is anchored in the head
file at line `relevant_lines_start + 1`. -/
theorem suggestion_anchor (d : List FilePatchInfo) (s : Suggestion) (c : InlineComment)
    (h : processOne d s = some c) : c.new_position = s.relevant_lines_start + 1 := by
  unfold processOne at h
  cases hf : d.find? (fun f => f.filename == s.relevant_file) with
  | none =>
    rw [hf] at h
    exact absurd h (by simp)
  | some tf =>
    rw [hf] at h
    simp only [Option.some.injEq] at h
    subst h
    rfl

/-- Witness for C8, the spec's Scenario 4: `relevant_lines_start = 10`
resolves to anchor line 11. -/
theorem suggestion_anchor_witness :
    (InlineComment.mk "fix" 11 "file.py").new_position =
      (Suggestion.mk "fix" "file.py" 10).relevant_lines_start + 1 :=
  suggestion_anchor [FilePatchInfo.mk "" "" "" "file.py" none 1 0 EDIT_TYPE.ADDED]
    (Suggestion.mk "fix" "file.py" 10) (InlineComment.mk "fix" 11 "file.py") (by decide)

/-- C9: contrary to the claim (and to the source's own comment "note that
we publish suggestions one-by-one. so, if one fails, the rest will still
be published"), the `try` block of `publish_code_suggestions` wraps the
whole loop and a single batched POST: when the first suggestion fails
(its `relevant_file` matches no diff file, so `target_file.filename`
raises on `None`), the second suggestion is never attempted and nothing
at all is published. -/
theorem publish_abort_on_first_failure :
    attempted [FilePatchInfo.mk "" "" "" "f2" none 1 0 EDIT_TYPE.ADDED]
        [Suggestion.mk "b1" "f1" 1, Suggestion.mk "b2" "f2" 2] =
      [Suggestion.mk "b1" "f1" 1] ∧
    buildComments [FilePatchInfo.mk "" "" "" "f2" none 1 0 EDIT_TYPE.ADDED]
        [Suggestion.mk "b1" "f1" 1, Suggestion.mk "b2" "f2" 2] = none ∧
    publishCodeSuggestions [FilePatchInfo.mk "" "" "" "f2" none 1 0 EDIT_TYPE.ADDED]
        [Suggestion.mk "b1" "f1" 1, Suggestion.mk "b2" "f2" 2] true = some (true, none) := by
  decide

/-- C10 counterexample: with an empty suggestion list and a failing
review POST, `publish_code_suggestions` does not return `True` — the
`except` handler's log f-string reads the never-assigned loop variable
`suggestion` and raises UnboundLocalError out of the function. -/
theorem publish_raises_on_empty_failed_post :
    publishCodeSuggestions [] [] false = none := by
  decide

/-- C10 (amended): whenever `publish_code_suggestions` returns at all it
returns `True` — also when an exception during suggestion processing or
publication was caught and logged — so the Boolean result never signals
failure; but on the one input class where the suggestion list is empty
and the review POST fails, the `except` handler itself raises (unbound
`suggestion` in its log f-string) and the function returns nothing. -/
theorem publish_true_unless_empty_publish_failure (d : List FilePatchInfo)
    (ss : List Suggestion) (publishOk : Bool) :
    (∃ r, publishCodeSuggestions d ss publishOk = some r ∧ r.1 = true) ∨
      (publishCodeSuggestions d ss publishOk = none ∧ ss = [] ∧ publishOk = false) := by
  unfold publishCodeSuggestions
  cases hb : buildComments d ss with
  | none => exact Or.inl ⟨(true, none), rfl, rfl⟩
  | some cs =>
    cases publishOk with
    | true => exact Or.inl ⟨(true, some cs), rfl, rfl⟩
    | false =>
      cases ss with
      | nil => exact Or.inr ⟨rfl, rfl, rfl⟩
      | cons s rest => exact Or.inl ⟨(true, none), rfl, rfl⟩

end GiteaProvider
